import Mathlib

/-!
Shallow embedding of pynguin's mutation-analysis assertion generator
(`pynguin/assertion/mutation_analysis/mutationanalysisgenerator.py`) and of
`GenericField` (`pynguin/utils/generic/genericaccessibleobject.py`), together
with theorems settling the specification claims about them.

Python dictionaries are modelled as association lists in insertion order,
Python `set`s of assertions as lists with equality-based membership, captured
runtime values as the inductive `PyVal` (with `vnone` standing for Python's
`None`, which is also what `dict.get` yields for an absent key), and raised
exceptions (`KeyError`, `AttributeError`, failed `assert` statements) as the
`Except PyErr` monad.
-/

namespace MutationAnalysis

/-- A captured runtime value.  `vnone` models Python's `None`; `vint` models
any other (opaque) value, identified by an integer code, compared with `==`
exactly as the generator compares captured values with `!=`. -/
inductive PyVal where
  | vnone : PyVal
  | vint : Int → PyVal
deriving DecidableEq, Repr

/-- The exceptions the generator can raise: a failed `assert` statement, an
unguarded `dict[...]` lookup, and an attribute access on `None`. -/
inductive PyErr where
  | assertionError : PyErr
  | keyError : PyErr
  | attributeError : PyErr
deriving DecidableEq, Repr

/-- The recoverable type metadata of a variable reference:
`variable_type.__name__` and `variable_type.__module__`. -/
structure TypeInfo where
  name : String
  module : String
deriving DecidableEq, Repr

/-- A test-case variable reference (`vr.VariableReference`): an identity plus
optional type metadata (`variable_type` may be `None`). -/
structure VariableReference where
  ident : Nat
  variable_type : Option TypeInfo
deriving DecidableEq, Repr

/-- A test-case statement: either a constructor statement
(`ps.ConstructorStatement`) or any other statement, each exposing its result
reference `ret_val`. -/
inductive Statement where
  | constructorStmt : VariableReference → Statement
  | otherStmt : VariableReference → Statement
deriving DecidableEq, Repr

/-- The result reference of a statement (`statement.ret_val`). -/
def Statement.ret_val : Statement → VariableReference
  | .constructorStmt v => v
  | .otherStmt v => v

/-- Whether a statement is a constructor statement
(`isinstance(stmt, ps.ConstructorStatement)`). -/
def Statement.isConstructor : Statement → Bool
  | .constructorStmt _ => true
  | .otherStmt _ => false

/-- A test case (`dtc.DefaultTestCase`): its id and its ordered statements. -/
structure TestCase where
  id : Nat
  statements : List Statement
deriving DecidableEq, Repr

/-- An assertion (modelled from the spec, since `assertion.py`,
`complexassertion.py` and `fieldassertion.py` are not part of this excerpt):
a value assertion `ComplexAssertion(source, value)` binds a statement's
result reference to an expected value; a field assertion
`FieldAssertion(source, value, field, module=None, owners=None)` binds an
expected value to a named field with optional instance reference, module and
owning-class list.  Per the spec, field assertions compare equal when
instance-reference, value, field-name, module and owning-class all match;
structural equality below is exactly that deduplication key. -/
inductive Assertion where
  | complexAssertion : Option VariableReference → PyVal → Assertion
  | fieldAssertion : Option VariableReference → PyVal → String →
      Option String → Option (List (Option String)) → Assertion
deriving DecidableEq, Repr

/-- The `value` property of an assertion (the expected value passed to the
constructor). -/
def Assertion.value : Assertion → PyVal
  | .complexAssertion _ v => v
  | .fieldAssertion _ v _ _ _ => v

/-- Modelled from the spec: the snapshot store's fragment key for class-level
fields (`cs.KEY_CLASS_FIELD`; `collectorstorage.py` is not part of this
excerpt). -/
def KEY_CLASS_FIELD : String := "class_field"

/-- Modelled from the spec: the snapshot store's fragment key for object
attributes (`cs.KEY_OBJECT_ATTRIBUTE`). -/
def KEY_OBJECT_ATTRIBUTE : String := "object_attribute"

/-- A mapping from field/attribute name to captured value (one fragment
entry's payload). -/
abbrev FieldMap := List (String × PyVal)

/-- One object fragment: a mapping from fragment key (`class_field` /
`object_attribute`) to a field map. -/
abbrev Fragment := List (String × FieldMap)

/-- An observation record (one "dataframe" of the collector storage):
test-case id, statement position, captured return value, captured globals
(module alias ↦ field name ↦ value) and the remaining object fragments
(the `remainders` after `cu.dict_without_keys` removes the four reserved
keys). -/
structure DataFrame where
  test_id : Nat
  position : Nat
  return_value : PyVal
  globals : List (String × List (String × PyVal))
  fragments : List (String × Fragment)
deriving DecidableEq, Repr

/-- Python `d.get(k)` on a field map: the stored value, or `None` when the
key is absent. -/
def pyGet (d : FieldMap) (k : String) : PyVal :=
  match d.lookup k with
  | some v => v
  | none => PyVal.vnone

/-- The unguarded double lookup `globals_frame[module_alias][global_field]`;
`none` corresponds to the `KeyError` Python raises. -/
def lookupGlobal (g : List (String × List (String × PyVal)))
    (module_alias fieldName : String) : Option PyVal :=
  match g.lookup module_alias with
  | some m => m.lookup fieldName
  | none => none

/-- `MutationAnalysisGenerator._get_testcase_by_id`: the first test case of
the list carrying the given id (all our test cases are `DefaultTestCase`s). -/
def getTestcaseById (test_cases : List TestCase) (test_case_id : Nat) :
    Option TestCase :=
  test_cases.find? (fun t => t.id == test_case_id)

/-- `MutationAnalysisGenerator._get_statement_by_pos`: the statement at the
given position when it is in range. -/
def getStatementByPos (test_case : TestCase) (position : Nat) :
    Option Statement :=
  test_case.statements.get? position

/-- `MutationAnalysisGenerator._get_current_object_ref`: scan backwards from
`position` (inclusive) for the closest constructor statement and return its
result reference.  The out-of-range branch is unreachable for the in-range
positions all callers supply (Python would raise an `IndexError` there). -/
def getCurrentObjectRef (test_case : TestCase) :
    Nat → Option VariableReference
  | 0 =>
    match test_case.statements.get? 0 with
    | some s => if s.isConstructor then some s.ret_val else none
    | none => none
  | p + 1 =>
    match test_case.statements.get? (p + 1) with
    | some s =>
        if s.isConstructor then some s.ret_val
        else getCurrentObjectRef test_case p
    | none => getCurrentObjectRef test_case p

/-- Modelled from the spec (for comparison with the claimed behaviour only):
object resolution scanning only the statements strictly preceding `pos`,
returning the result reference of the closest preceding constructor
statement, or none when no such statement exists. -/
def getCurrentObjectRefSpec (test_case : TestCase) (pos : Nat) :
    Option VariableReference :=
  (((test_case.statements.take pos).reverse.find? Statement.isConstructor)).map
    Statement.ret_val

/-- `MutationAnalysisGenerator._get_current_object_class`:
`var_ref.variable_type.__name__` when both the reference and its type
metadata are present. -/
def getCurrentObjectClass (var_ref : Option VariableReference) :
    Option String :=
  match var_ref with
  | some v =>
    match v.variable_type with
    | some t => some t.name
    | none => none
  | none => none

/-- `MutationAnalysisGenerator._get_current_object_module`:
`var_ref.variable_type.__module__` when both are present. -/
def getCurrentObjectModule (var_ref : Option VariableReference) :
    Option String :=
  match var_ref with
  | some v =>
    match v.variable_type with
    | some t => some t.module
    | none => none
  | none => none

/-- `MutationAnalysisGenerator._compare_return_value`: when the mutant's
return value differs from the reference's, construct
`ComplexAssertion(statement.ret_val, ref_rv)`; suppress it when the last
object assertion exists and its `value` is the candidate's `value` (the
source's `is` identity check holds here exactly when the values are equal,
because within one per-position iteration both sides are the very
`ref_rv` object captured for the reference), otherwise update the cursor and
attach the assertion.  Returns the new cursor and the attached assertions in
attachment order. -/
def compareReturnValue (retval ref_rv : PyVal) (statement : Statement)
    (last_obj : Option Assertion) : Option Assertion × List Assertion :=
  if retval ≠ ref_rv then
    let assertion := Assertion.complexAssertion (some statement.ret_val) ref_rv
    match last_obj with
    | some l =>
        if l.value = assertion.value then (last_obj, [])
        else (some assertion, [assertion])
    | none => (some assertion, [assertion])
  else (last_obj, [])

/-- The inner field loop of `MutationAnalysisGenerator._compare_globals` for
one reference module alias, together with the unguarded
`globals_frame[module_alias][global_field]` lookup (whose failure is the
`KeyError`).  Returns the updated global-assertion set and the attached
assertions in attachment order. -/
def compareGlobalsFields (globals_frame : List (String × List (String × PyVal)))
    (module_alias : String) :
    List (String × PyVal) → List Assertion →
      Except PyErr (List Assertion × List Assertion)
  | [], global_set => .ok (global_set, [])
  | (global_field, ref_value) :: rest, global_set =>
    match lookupGlobal globals_frame module_alias global_field with
    | none => .error .keyError
    | some value =>
      if ref_value ≠ value then
        let assertion :=
          Assertion.fieldAssertion none ref_value global_field
            (some module_alias) none
        if assertion ∈ global_set then
          compareGlobalsFields globals_frame module_alias rest global_set
        else
          match compareGlobalsFields globals_frame module_alias rest
              (assertion :: global_set) with
          | .ok (s, att) => .ok (s, assertion :: att)
          | .error e => .error e
      else compareGlobalsFields globals_frame module_alias rest global_set

/-- `MutationAnalysisGenerator._compare_globals`: iterate the reference
globals module by module (the source iterates `keys()` and re-fetches each
module's field map, asserting its presence; on a dict the two coincide). -/
def compareGlobals (globals_frame : List (String × List (String × PyVal))) :
    List (String × List (String × PyVal)) → List Assertion →
      Except PyErr (List Assertion × List Assertion)
  | [], global_set => .ok (global_set, [])
  | (module_alias, ref_fields) :: rest, global_set =>
    match compareGlobalsFields globals_frame module_alias ref_fields
        global_set with
    | .error e => .error e
    | .ok (s1, a1) =>
      match compareGlobals globals_frame rest s1 with
      | .error e => .error e
      | .ok (s2, a2) => .ok (s2, a1 ++ a2)

/-- `MutationAnalysisGenerator._compare_class_fields`: for each reference
field whose value differs from the mutant fragment's (`frag_val.get(field)`),
resolve the current object, and attach
`FieldAssertion(None, ref_value, field, obj_module, [obj_class])` unless an
equal assertion is already in the field-assertion set.  A `none` fragment
models the `frag_val = fragment.get(frag_key)` miss: Python would raise an
`AttributeError` at the first `frag_val.get(field)` access. -/
def compareClassFields (frag_val : Option FieldMap) (pos : Nat)
    (test_case : TestCase) :
    List (String × PyVal) → List Assertion →
      Except PyErr (List Assertion × List Assertion)
  | [], field_set => .ok (field_set, [])
  | (fieldName, ref_value) :: rest, field_set =>
    match frag_val with
    | none => .error .attributeError
    | some d =>
      if ref_value ≠ pyGet d fieldName then
        let obj_vr := getCurrentObjectRef test_case pos
        let assertion :=
          Assertion.fieldAssertion none ref_value fieldName
            (getCurrentObjectModule obj_vr)
            (some [getCurrentObjectClass obj_vr])
        if assertion ∈ field_set then
          compareClassFields frag_val pos test_case rest field_set
        else
          match compareClassFields frag_val pos test_case rest
              (assertion :: field_set) with
          | .ok (s, att) => .ok (s, assertion :: att)
          | .error e => .error e
      else compareClassFields frag_val pos test_case rest field_set

/-- `MutationAnalysisGenerator._compare_object_attributes`: like the
class-field comparison, but the assertion is
`FieldAssertion(obj_vr, ref_value, field)` — instance scoped, no module or
owner list. -/
def compareObjectAttributes (frag_val : Option FieldMap) (pos : Nat)
    (test_case : TestCase) :
    List (String × PyVal) → List Assertion →
      Except PyErr (List Assertion × List Assertion)
  | [], field_set => .ok (field_set, [])
  | (fieldName, ref_value) :: rest, field_set =>
    match frag_val with
    | none => .error .attributeError
    | some d =>
      if ref_value ≠ pyGet d fieldName then
        let obj_vr := getCurrentObjectRef test_case pos
        let assertion :=
          Assertion.fieldAssertion obj_vr ref_value fieldName none none
        if assertion ∈ field_set then
          compareObjectAttributes frag_val pos test_case rest field_set
        else
          match compareObjectAttributes frag_val pos test_case rest
              (assertion :: field_set) with
          | .ok (s, att) => .ok (s, assertion :: att)
          | .error e => .error e
      else compareObjectAttributes frag_val pos test_case rest field_set

/-- The loop over one reference fragment's entries in
`_generate_assertions`: dispatch on the fragment key (`class_field` /
`object_attribute`; any other key is silently skipped). -/
def compareFragmentEntries (fragment : Fragment) (pos : Nat)
    (test_case : TestCase) :
    List (String × FieldMap) → List Assertion →
      Except PyErr (List Assertion × List Assertion)
  | [], field_set => .ok (field_set, [])
  | (frag_key, ref_frag_val) :: rest, field_set =>
    let frag_val := fragment.lookup frag_key
    let step :=
      if frag_key = KEY_CLASS_FIELD then
        compareClassFields frag_val pos test_case ref_frag_val field_set
      else if frag_key = KEY_OBJECT_ATTRIBUTE then
        compareObjectAttributes frag_val pos test_case ref_frag_val field_set
      else .ok (field_set, [])
    match step with
    | .error e => .error e
    | .ok (s1, a1) =>
      match compareFragmentEntries fragment pos test_case rest s1 with
      | .error e => .error e
      | .ok (s2, a2) => .ok (s2, a1 ++ a2)

/-- The loop over the reference remainders in `_generate_assertions`:
`fragment = dataframe.get(key)` followed by
`assert fragment is not None` — a reference fragment key missing from the
mutant dataframe is a failed assertion, not a skip. -/
def compareFragments (df : DataFrame) (pos : Nat) (test_case : TestCase) :
    List (String × Fragment) → List Assertion →
      Except PyErr (List Assertion × List Assertion)
  | [], field_set => .ok (field_set, [])
  | (key, ref_fragment) :: rest, field_set =>
    match df.fragments.lookup key with
    | none => .error .assertionError
    | some fragment =>
      match compareFragmentEntries fragment pos test_case ref_fragment
          field_set with
      | .error e => .error e
      | .ok (s1, a1) =>
        match compareFragments df pos test_case rest s1 with
        | .error e => .error e
        | .ok (s2, a2) => .ok (s2, a1 ++ a2)

/-- The mutable instance state of `MutationAnalysisGenerator` touched by the
synthesis: `_global_assertions`, `_field_assertions` (both initialised in
`__init__` and never re-created) and the `_last_obj_assertion` cursor. -/
structure SynthState where
  global_assertions : List Assertion
  field_assertions : List Assertion
  last_obj_assertion : Option Assertion
deriving DecidableEq, Repr

/-- The generator state right after `__init__`: empty deduplication sets, no
cursor. -/
def initState : SynthState :=
  { global_assertions := [], field_assertions := [], last_obj_assertion := none }

/-- The body of the mutant loop in `_generate_assertions` for one mutated
dataframe: compare the return value, then the globals, then the remaining
fragments, threading the generator state.  Returns the new state and the
assertions attached to the statement, in attachment order
(return value, then globals, then fragments). -/
def processMutant (ref_rv : PyVal)
    (ref_globals : List (String × List (String × PyVal)))
    (remainders : List (String × Fragment)) (pos : Nat)
    (test_case : TestCase) (statement : Statement)
    (st : SynthState) (df : DataFrame) :
    Except PyErr (SynthState × List Assertion) :=
  let (last, attRV) :=
    compareReturnValue df.return_value ref_rv statement st.last_obj_assertion
  match compareGlobals df.globals ref_globals st.global_assertions with
  | .error e => .error e
  | .ok (gset, attG) =>
    match compareFragments df pos test_case remainders st.field_assertions with
    | .error e => .error e
    | .ok (fset, attF) =>
      .ok ({ global_assertions := gset, field_assertions := fset,
             last_obj_assertion := last }, attRV ++ attG ++ attF)

/-- The mutant loop of `_generate_assertions`: process the mutated dataframes
in ascending mutant-index order, threading the state; the attached assertions
are concatenated in processing order. -/
def processMutants (ref_rv : PyVal)
    (ref_globals : List (String × List (String × PyVal)))
    (remainders : List (String × Fragment)) (pos : Nat)
    (test_case : TestCase) (statement : Statement) :
    SynthState → List DataFrame →
      Except PyErr (SynthState × List Assertion)
  | st, [] => .ok (st, [])
  | st, df :: rest =>
    match processMutant ref_rv ref_globals remainders pos test_case statement
        st df with
    | .error e => .error e
    | .ok (st1, a1) =>
      match processMutants ref_rv ref_globals remainders pos test_case
          statement st1 rest with
      | .error e => .error e
      | .ok (st2, a2) => .ok (st2, a1 ++ a2)

/-- Modelled from the spec: the snapshot store holds one observation list per
variant index, index 0 being the reference (`collectorstorage.py` is not part
of this excerpt); `get_items` returns a variant's observations. -/
def getItems (storage : List (List DataFrame)) (variant : Nat) :
    List DataFrame :=
  storage.getD variant []

/-- Modelled from the spec: `get_dataframe_of_mutations` returns, in
ascending variant-index order, the mutant (variant ≥ 1) observations keyed by
the given test id and position. -/
def getDataframesOfMutations (storage : List (List DataFrame))
    (test_id pos : Nat) : List DataFrame :=
  ((storage.drop 1).map
    (fun frames =>
      frames.filter (fun df => df.test_id == test_id && df.position == pos))).flatten

/-- The body of the reference loop in `_generate_assertions` for one
reference dataframe: resolve the test case and the statement (the failed
lookups are the two `assert ... is not None` statements), reset the
`_last_obj_assertion` cursor, fetch the mutated dataframes and run the mutant
loop.  In this embedding the `remainders` of `cu.dict_without_keys` are the
structurally separated `fragments` of the observation record. -/
def processDataframe (storage : List (List DataFrame))
    (test_cases : List TestCase) (st : SynthState) (ref : DataFrame) :
    Except PyErr (SynthState × List Assertion) :=
  match getTestcaseById test_cases ref.test_id with
  | none => .error .assertionError
  | some test_case =>
    match getStatementByPos test_case ref.position with
    | none => .error .assertionError
    | some statement =>
      processMutants ref.return_value ref.globals ref.fragments ref.position
        test_case statement
        { st with last_obj_assertion := none }
        (getDataframesOfMutations storage ref.test_id ref.position)

/-- The reference loop of `_generate_assertions` over a given list of
reference dataframes; the output associates each processed
`(test_id, position)` with the assertions attached to its statement. -/
def generateAssertionsAux (storage : List (List DataFrame))
    (test_cases : List TestCase) :
    SynthState → List DataFrame →
      Except PyErr (SynthState × List (Nat × Nat × List Assertion))
  | st, [] => .ok (st, [])
  | st, ref :: rest =>
    match processDataframe storage test_cases st ref with
    | .error e => .error e
    | .ok (st1, att) =>
      match generateAssertionsAux storage test_cases st1 rest with
      | .error e => .error e
      | .ok (st2, out) => .ok (st2, (ref.test_id, ref.position, att) :: out)

/-- `MutationAnalysisGenerator._generate_assertions`: walk every reference
observation (variant 0) of the storage.  One call is one synthesis pass
(`visit_test_suite_chromosome` performs the executions — external to this
excerpt's core — and then calls this once per visited chromosome, with the
generator's instance state carried over between visits). -/
def generateAssertions (storage : List (List DataFrame))
    (test_cases : List TestCase) (st : SynthState) :
    Except PyErr (SynthState × List (Nat × Nat × List Assertion)) :=
  generateAssertionsAux storage test_cases st (getItems storage 0)

/-- Category test: a value (return-value) assertion. -/
def isValueAssertion : Assertion → Bool
  | .complexAssertion _ _ => true
  | _ => false

/-- Category test: a module-global field assertion, as built by the globals
comparison (module scope present, no owner list). -/
def isGlobalAssertion : Assertion → Bool
  | .fieldAssertion _ _ _ (some _) none => true
  | _ => false

/-- Category test: a fragment (class-field or object-attribute) assertion, as
built by the fragment comparisons (an owner list, or neither module nor owner
list). -/
def isFragmentAssertion : Assertion → Bool
  | .fieldAssertion _ _ _ _ (some _) => true
  | .fieldAssertion _ _ _ none none => true
  | _ => false

end MutationAnalysis

namespace GenericAccessible

/-- `GenericField` (`pynguin/utils/generic/genericaccessibleobject.py`): a
reflective wrapper around a field, holding its owning type (identified here
by an opaque code, standing for the Python type object) and its field name.
The `_field_type` member plays no part in equality or hashing and is
omitted. -/
structure GenericField where
  owner : Nat
  field : String
deriving DecidableEq, Repr

/-- `GenericField.__eq__` on two `GenericField` instances, as written in the
source: `self._owner == other._owner and self._field == self._field` — note
the second conjunct compares `self._field` with itself.  (The `self is other`
and `isinstance` short-circuits of the source yield the same result on two
`GenericField` instances.) -/
def GenericField.eqPy (a b : GenericField) : Bool :=
  a.owner == b.owner && a.field == a.field

/-- `GenericField.__hash__`: `31 + 17 * hash(self._owner) +
17 * hash(self._field)`, parametrised by the interpreter's hash functions on
type objects and strings. -/
def GenericField.hashPy (hashOwner : Nat → Int) (hashField : String → Int)
    (a : GenericField) : Int :=
  31 + 17 * hashOwner a.owner + 17 * hashField a.field

end GenericAccessible

namespace MutationAnalysis

/-- The `value` property of a constructed value assertion is the expected
value it was constructed with. -/
@[simp] lemma Assertion.value_complex (s : Option VariableReference)
    (v : PyVal) : (Assertion.complexAssertion s v).value = v := rfl

/-- Any failure of the per-module globals field loop is the `KeyError` of
the unguarded mutant lookup. -/
lemma compareGlobalsFields_error (gf : List (String × List (String × PyVal)))
    (ma : String) :
    ∀ (l : List (String × PyVal)) (gs : List Assertion) (e : PyErr),
      compareGlobalsFields gf ma l gs = .error e → e = .keyError := by
  intro l
  induction l with
  | nil => intro gs e h; simp [compareGlobalsFields] at h
  | cons p rest ih =>
    intro gs e h
    obtain ⟨gfield, rv⟩ := p
    cases hl : lookupGlobal gf ma gfield with
    | none =>
      simp only [compareGlobalsFields, hl] at h
      injection h with h2
      exact h2.symm
    | some v =>
      by_cases hne : rv = v
      · simp only [compareGlobalsFields, hl, hne, ne_eq, not_true_eq_false,
          ite_false] at h
        exact ih gs e h
      · by_cases hmem :
            Assertion.fieldAssertion none rv gfield (some ma) none ∈ gs
        · simp only [compareGlobalsFields, hl, hne, ne_eq, not_false_eq_true,
            ite_true, hmem] at h
          exact ih gs e h
        · cases hrec : compareGlobalsFields gf ma rest
              (Assertion.fieldAssertion none rv gfield (some ma) none :: gs) with
          | error e2 =>
            simp only [compareGlobalsFields, hl, hne, ne_eq, not_false_eq_true,
              ite_true, hmem, ite_false, hrec] at h
            injection h with h2
            exact (h2.symm.trans (ih _ e2 hrec) :)
          | ok r =>
            simp only [compareGlobalsFields, hl, hne, ne_eq, not_false_eq_true,
              ite_true, hmem, ite_false, hrec] at h
            cases h

/-- When some reference global field of the module is absent from the mutant
globals, the per-module field loop raises the `KeyError`. -/
lemma compareGlobalsFields_missing (gf : List (String × List (String × PyVal)))
    (ma : String) :
    ∀ (l : List (String × PyVal)) (gs : List Assertion),
      (∃ p ∈ l, lookupGlobal gf ma p.1 = none) →
      compareGlobalsFields gf ma l gs = .error .keyError := by
  intro l
  induction l with
  | nil => rintro gs ⟨p, hp, _⟩; cases hp
  | cons q rest ih =>
    rintro gs ⟨p, hp, hmiss⟩
    obtain ⟨gfield, rv⟩ := q
    simp only [compareGlobalsFields]
    rcases List.mem_cons.mp hp with hp | hp
    · subst hp
      rw [hmiss]
    · cases hl : lookupGlobal gf ma gfield with
      | none => rfl
      | some v =>
        have hrest : compareGlobalsFields gf ma rest
              (Assertion.fieldAssertion none rv gfield (some ma) none :: gs) =
            .error .keyError := ih _ ⟨p, hp, hmiss⟩
        have hrest2 : compareGlobalsFields gf ma rest gs = .error .keyError :=
          ih _ ⟨p, hp, hmiss⟩
        by_cases hne : rv = v
        · simp [hne, hrest2]
        · by_cases hmem :
              Assertion.fieldAssertion none rv gfield (some ma) none ∈ gs
          · simp [hne, hmem, hrest2]
          · simp [hne, hmem, hrest]

/-- When every reference global field of the module is present in the mutant
globals, the per-module field loop completes. -/
lemma compareGlobalsFields_present (gf : List (String × List (String × PyVal)))
    (ma : String) :
    ∀ (l : List (String × PyVal)) (gs : List Assertion),
      (∀ p ∈ l, ∃ v, lookupGlobal gf ma p.1 = some v) →
      ∃ s att, compareGlobalsFields gf ma l gs = .ok (s, att) := by
  intro l
  induction l with
  | nil => intro gs _; exact ⟨gs, [], rfl⟩
  | cons q rest ih =>
    intro gs hpres
    obtain ⟨gfield, rv⟩ := q
    obtain ⟨v, hv⟩ := hpres (gfield, rv) (List.mem_cons_self _ _)
    simp only [compareGlobalsFields, hv]
    have hrest : ∀ p ∈ rest, ∃ w, lookupGlobal gf ma p.1 = some w :=
      fun p hp => hpres p (List.mem_cons_of_mem _ hp)
    by_cases hne : rv = v
    · simpa [hne] using ih gs hrest
    · by_cases hmem :
          Assertion.fieldAssertion none rv gfield (some ma) none ∈ gs
      · simpa [hne, hmem] using ih gs hrest
      · obtain ⟨s, att, hrec⟩ :=
          ih (Assertion.fieldAssertion none rv gfield (some ma) none :: gs) hrest
        refine ⟨s, Assertion.fieldAssertion none rv gfield (some ma) none :: att,
          ?_⟩
        simp [hne, hmem, hrec]

/-- When every reference global field of the module is present with an equal
value, the per-module field loop changes nothing and attaches nothing. -/
lemma compareGlobalsFields_equal (gf : List (String × List (String × PyVal)))
    (ma : String) :
    ∀ (l : List (String × PyVal)) (gs : List Assertion),
      (∀ p ∈ l, lookupGlobal gf ma p.1 = some p.2) →
      compareGlobalsFields gf ma l gs = .ok (gs, []) := by
  intro l
  induction l with
  | nil => intro gs _; rfl
  | cons q rest ih =>
    intro gs heq
    obtain ⟨gfield, rv⟩ := q
    have hv := heq (gfield, rv) (List.mem_cons_self _ _)
    simp only [compareGlobalsFields, hv]
    simpa using ih gs (fun p hp => heq p (List.mem_cons_of_mem _ hp))

/-- Any failure of `_compare_globals` is the `KeyError`. -/
lemma compareGlobals_error (gf : List (String × List (String × PyVal))) :
    ∀ (refg : List (String × List (String × PyVal))) (gs : List Assertion)
      (e : PyErr),
      compareGlobals gf refg gs = .error e → e = .keyError := by
  intro refg
  induction refg with
  | nil => intro gs e h; simp [compareGlobals] at h
  | cons q rest ih =>
    intro gs e h
    obtain ⟨ma, fields⟩ := q
    cases h1 : compareGlobalsFields gf ma fields gs with
    | error e1 =>
      simp only [compareGlobals, h1] at h
      injection h with h2
      exact (h2.symm.trans (compareGlobalsFields_error gf ma fields gs e1 h1) :)
    | ok r1 =>
      obtain ⟨s1, a1⟩ := r1
      cases h2 : compareGlobals gf rest s1 with
      | error e2 =>
        simp only [compareGlobals, h1, h2] at h
        injection h with h3
        exact (h3.symm.trans (ih s1 e2 h2) :)
      | ok r2 =>
        obtain ⟨s2, a2⟩ := r2
        simp only [compareGlobals, h1, h2] at h
        cases h

/-- C9: when a module alias or field name of the reference globals is absent
from the mutant globals mapping, the unguarded
`globals_frame[module_alias][global_field]` lookup makes `_compare_globals`
abort with the `KeyError`; and under the precondition that every reference
(module-alias, field-name) pair is present in the mutant globals, the
comparison completes without raising. -/
theorem c9_globals_keyerror (gf refg : List (String × List (String × PyVal)))
    (gs : List Assertion) :
    ((∃ mp ∈ refg, ∃ p ∈ mp.2, lookupGlobal gf mp.1 p.1 = none) →
       compareGlobals gf refg gs = .error .keyError) ∧
    ((∀ mp ∈ refg, ∀ p ∈ mp.2, ∃ v, lookupGlobal gf mp.1 p.1 = some v) →
       ∃ s att, compareGlobals gf refg gs = .ok (s, att)) := by
  induction refg generalizing gs with
  | nil =>
    constructor
    · rintro ⟨mp, hmp, _⟩; cases hmp
    · intro _; exact ⟨gs, [], rfl⟩
  | cons q rest ih =>
    obtain ⟨ma, fields⟩ := q
    constructor
    · rintro ⟨mp, hmp, p, hp, hmiss⟩
      rcases List.mem_cons.mp hmp with hq | hq
      · subst hq
        have hf : compareGlobalsFields gf ma fields gs = .error .keyError :=
          compareGlobalsFields_missing gf ma fields gs ⟨p, hp, hmiss⟩
        simp [compareGlobals, hf]
      · cases h1 : compareGlobalsFields gf ma fields gs with
        | error e1 =>
          have he := compareGlobalsFields_error gf ma fields gs e1 h1
          subst he
          simp [compareGlobals, h1]
        | ok r1 =>
          obtain ⟨s1, a1⟩ := r1
          have hr := (ih s1).1 ⟨mp, hq, p, hp, hmiss⟩
          simp [compareGlobals, h1, hr]
    · intro hpres
      obtain ⟨s1, a1, h1⟩ := compareGlobalsFields_present gf ma fields gs
        (hpres (ma, fields) (List.mem_cons_self _ _))
      obtain ⟨s2, a2, h2⟩ := (ih s1).2
        (fun mp hmp p hp => hpres mp (List.mem_cons_of_mem _ hmp) p hp)
      exact ⟨s2, a1 ++ a2, by simp [compareGlobals, h1, h2]⟩

/-- Witness for C9 at concrete inputs: a reference global `m.g = 1` absent
from empty mutant globals raises the `KeyError`, and the same reference
global present (with value 2) in the mutant globals completes. -/
theorem c9_globals_keyerror_witness :
    compareGlobals [] [("m", [("g", PyVal.vint 1)])] [] = .error .keyError ∧
    ∃ s att, compareGlobals [("m", [("g", PyVal.vint 2)])]
        [("m", [("g", PyVal.vint 1)])] [] = .ok (s, att) :=
  ⟨(c9_globals_keyerror [] [("m", [("g", PyVal.vint 1)])] []).1
     ⟨("m", [("g", PyVal.vint 1)]), by decide, ("g", PyVal.vint 1), by decide,
      by decide⟩,
   (c9_globals_keyerror [("m", [("g", PyVal.vint 2)])]
       [("m", [("g", PyVal.vint 1)])] []).2
     (by intro mp hmp p hp
         simp only [List.mem_singleton] at hmp
         subst hmp
         simp only [List.mem_singleton] at hp
         subst hp
         exact ⟨PyVal.vint 2, by decide⟩)⟩

/-- A global-shaped assertion is not fragment-shaped. -/
lemma isGlobal_not_isFragment (a : Assertion)
    (h : isGlobalAssertion a = true) : isFragmentAssertion a = false := by
  cases a with
  | complexAssertion s v => simp [isGlobalAssertion] at h
  | fieldAssertion s v f m ow =>
    cases m <;> cases ow <;>
      simp_all [isGlobalAssertion, isFragmentAssertion]

/-- A value assertion is neither global- nor fragment-shaped. -/
lemma isValue_not_isField (a : Assertion) (h : isValueAssertion a = true) :
    isGlobalAssertion a = false ∧ isFragmentAssertion a = false := by
  cases a with
  | complexAssertion s v => simp [isGlobalAssertion, isFragmentAssertion]
  | fieldAssertion s v f m ow => simp [isValueAssertion] at h

/-- Every assertion attached by the return-value comparison is a value
assertion. -/
lemma compareReturnValue_shape (retval ref_rv : PyVal) (stmt : Statement)
    (last_obj : Option Assertion) :
    ∀ a ∈ (compareReturnValue retval ref_rv stmt last_obj).2,
      isValueAssertion a = true := by
  intro a ha
  unfold compareReturnValue at ha
  by_cases hne : retval ≠ ref_rv
  · rw [if_pos hne] at ha
    cases last_obj with
    | none =>
      simp only [List.mem_singleton] at ha
      subst ha; rfl
    | some l =>
      by_cases hv : l.value = ref_rv
      · simp [hv] at ha
      · simp only [Assertion.value_complex, hv, ite_false,
          List.mem_singleton] at ha
        subst ha; rfl
  · rw [if_neg hne] at ha
    simp at ha

/-- The per-module globals loop only grows the deduplication set, and every
attached assertion is a fresh global assertion scoped to the module alias. -/
lemma compareGlobalsFields_sound (gf : List (String × List (String × PyVal)))
    (ma : String) :
    ∀ (l : List (String × PyVal)) (gs s att : List Assertion),
      compareGlobalsFields gf ma l gs = .ok (s, att) →
      (∀ a ∈ gs, a ∈ s) ∧
      ∀ a ∈ att,
        (∃ f v, a = .fieldAssertion none v f (some ma) none) ∧ a ∉ gs := by
  intro l
  induction l with
  | nil =>
    intro gs s att h
    simp only [compareGlobalsFields, Except.ok.injEq, Prod.mk.injEq] at h
    obtain ⟨rfl, rfl⟩ := h
    exact ⟨fun a ha => ha, by simp⟩
  | cons q rest ih =>
    intro gs s att h
    obtain ⟨gfield, rv⟩ := q
    cases hl : lookupGlobal gf ma gfield with
    | none =>
      simp only [compareGlobalsFields, hl] at h
      cases h
    | some v =>
      by_cases hne : rv = v
      · simp only [compareGlobalsFields, hl, hne, ne_eq, not_true_eq_false,
          ite_false] at h
        exact ih gs s att h
      · by_cases hmem :
            Assertion.fieldAssertion none rv gfield (some ma) none ∈ gs
        · simp only [compareGlobalsFields, hl, hne, ne_eq, not_false_eq_true,
            ite_true, hmem] at h
          exact ih gs s att h
        · cases hrec : compareGlobalsFields gf ma rest
              (Assertion.fieldAssertion none rv gfield (some ma) none :: gs) with
          | error e =>
            simp only [compareGlobalsFields, hl, hne, ne_eq, not_false_eq_true,
              ite_true, hmem, ite_false, hrec] at h
            cases h
          | ok r =>
            obtain ⟨s1, att1⟩ := r
            simp only [compareGlobalsFields, hl, hne, ne_eq, not_false_eq_true,
              ite_true, hmem, ite_false, hrec, Except.ok.injEq,
              Prod.mk.injEq] at h
            obtain ⟨rfl, rfl⟩ := h
            obtain ⟨hmono, hsh⟩ := ih _ _ _ hrec
            refine ⟨fun a ha => hmono a (List.mem_cons_of_mem _ ha), ?_⟩
            intro a ha
            rcases List.mem_cons.mp ha with rfl | ha
            · exact ⟨⟨gfield, rv, rfl⟩, hmem⟩
            · obtain ⟨hsha, hfresh⟩ := hsh a ha
              exact ⟨hsha, fun hin => hfresh (List.mem_cons_of_mem _ hin)⟩

/-- `_compare_globals` only grows the deduplication set, and every attached
assertion is a fresh global assertion. -/
lemma compareGlobals_sound (gf : List (String × List (String × PyVal))) :
    ∀ (refg : List (String × List (String × PyVal)))
      (gs s att : List Assertion),
      compareGlobals gf refg gs = .ok (s, att) →
      (∀ a ∈ gs, a ∈ s) ∧
      ∀ a ∈ att, isGlobalAssertion a = true ∧ a ∉ gs := by
  intro refg
  induction refg with
  | nil =>
    intro gs s att h
    simp only [compareGlobals, Except.ok.injEq, Prod.mk.injEq] at h
    obtain ⟨rfl, rfl⟩ := h
    exact ⟨fun a ha => ha, by simp⟩
  | cons q rest ih =>
    intro gs s att h
    obtain ⟨ma, fields⟩ := q
    cases h1 : compareGlobalsFields gf ma fields gs with
    | error e =>
      simp only [compareGlobals, h1] at h
      cases h
    | ok r1 =>
      obtain ⟨s1, a1⟩ := r1
      cases h2 : compareGlobals gf rest s1 with
      | error e =>
        simp only [compareGlobals, h1, h2] at h
        cases h
      | ok r2 =>
        obtain ⟨s2, a2⟩ := r2
        simp only [compareGlobals, h1, h2, Except.ok.injEq,
          Prod.mk.injEq] at h
        obtain ⟨rfl, rfl⟩ := h
        obtain ⟨hm1, hs1⟩ := compareGlobalsFields_sound gf ma fields gs s1 a1 h1
        obtain ⟨hm2, hs2⟩ := ih s1 s2 a2 h2
        refine ⟨fun a ha => hm2 a (hm1 a ha), ?_⟩
        intro a ha
        rcases List.mem_append.mp ha with ha | ha
        · obtain ⟨⟨f, v, rfl⟩, hfresh⟩ := hs1 a ha
          exact ⟨rfl, hfresh⟩
        · obtain ⟨hsha, hfresh⟩ := hs2 a ha
          exact ⟨hsha, fun hin => hfresh (hm1 a hin)⟩

/-- The class-field comparison only grows the deduplication set, and every
attached assertion is a fresh field assertion with no instance reference,
scoped to the module and class recovered from the backward object
resolution at this position. -/
lemma compareClassFields_sound (frag_val : Option FieldMap) (pos : Nat)
    (tc : TestCase) :
    ∀ (l : List (String × PyVal)) (fs s att : List Assertion),
      compareClassFields frag_val pos tc l fs = .ok (s, att) →
      (∀ a ∈ fs, a ∈ s) ∧
      ∀ a ∈ att,
        (∃ f v, a = .fieldAssertion none v f
          (getCurrentObjectModule (getCurrentObjectRef tc pos))
          (some [getCurrentObjectClass (getCurrentObjectRef tc pos)])) ∧
        a ∉ fs := by
  intro l
  induction l with
  | nil =>
    intro fs s att h
    simp only [compareClassFields, Except.ok.injEq, Prod.mk.injEq] at h
    obtain ⟨rfl, rfl⟩ := h
    exact ⟨fun a ha => ha, by simp⟩
  | cons q rest ih =>
    intro fs s att h
    obtain ⟨fieldName, rv⟩ := q
    cases frag_val with
    | none =>
      simp only [compareClassFields] at h
      cases h
    | some d =>
      by_cases hne : rv = pyGet d fieldName
      · simp only [compareClassFields, hne, ne_eq, not_true_eq_false,
          ite_false] at h
        exact ih fs s att h
      · by_cases hmem : Assertion.fieldAssertion none rv fieldName
            (getCurrentObjectModule (getCurrentObjectRef tc pos))
            (some [getCurrentObjectClass (getCurrentObjectRef tc pos)]) ∈ fs
        · simp only [compareClassFields, hne, ne_eq, not_false_eq_true,
            ite_true, hmem] at h
          exact ih fs s att h
        · cases hrec : compareClassFields (some d) pos tc rest
              (Assertion.fieldAssertion none rv fieldName
                (getCurrentObjectModule (getCurrentObjectRef tc pos))
                (some [getCurrentObjectClass (getCurrentObjectRef tc pos)]) ::
                fs) with
          | error e =>
            simp only [compareClassFields, hne, ne_eq, not_false_eq_true,
              ite_true, hmem, ite_false, hrec] at h
            cases h
          | ok r =>
            obtain ⟨s1, att1⟩ := r
            simp only [compareClassFields, hne, ne_eq, not_false_eq_true,
              ite_true, hmem, ite_false, hrec, Except.ok.injEq,
              Prod.mk.injEq] at h
            obtain ⟨rfl, rfl⟩ := h
            obtain ⟨hmono, hsh⟩ := ih _ _ _ hrec
            refine ⟨fun a ha => hmono a (List.mem_cons_of_mem _ ha), ?_⟩
            intro a ha
            rcases List.mem_cons.mp ha with rfl | ha
            · exact ⟨⟨fieldName, rv, rfl⟩, hmem⟩
            · obtain ⟨hsha, hfresh⟩ := hsh a ha
              exact ⟨hsha, fun hin => hfresh (List.mem_cons_of_mem _ hin)⟩

/-- The object-attribute comparison only grows the deduplication set, and
every attached assertion is a fresh field assertion whose instance reference
is the backward object resolution at this position, with neither module nor
owner scope. -/
lemma compareObjectAttributes_sound (frag_val : Option FieldMap) (pos : Nat)
    (tc : TestCase) :
    ∀ (l : List (String × PyVal)) (fs s att : List Assertion),
      compareObjectAttributes frag_val pos tc l fs = .ok (s, att) →
      (∀ a ∈ fs, a ∈ s) ∧
      ∀ a ∈ att,
        (∃ f v, a = .fieldAssertion (getCurrentObjectRef tc pos) v f
          none none) ∧
        a ∉ fs := by
  intro l
  induction l with
  | nil =>
    intro fs s att h
    simp only [compareObjectAttributes, Except.ok.injEq, Prod.mk.injEq] at h
    obtain ⟨rfl, rfl⟩ := h
    exact ⟨fun a ha => ha, by simp⟩
  | cons q rest ih =>
    intro fs s att h
    obtain ⟨fieldName, rv⟩ := q
    cases frag_val with
    | none =>
      simp only [compareObjectAttributes] at h
      cases h
    | some d =>
      by_cases hne : rv = pyGet d fieldName
      · simp only [compareObjectAttributes, hne, ne_eq, not_true_eq_false,
          ite_false] at h
        exact ih fs s att h
      · by_cases hmem : Assertion.fieldAssertion (getCurrentObjectRef tc pos)
            rv fieldName none none ∈ fs
        · simp only [compareObjectAttributes, hne, ne_eq, not_false_eq_true,
            ite_true, hmem] at h
          exact ih fs s att h
        · cases hrec : compareObjectAttributes (some d) pos tc rest
              (Assertion.fieldAssertion (getCurrentObjectRef tc pos) rv
                fieldName none none :: fs) with
          | error e =>
            simp only [compareObjectAttributes, hne, ne_eq, not_false_eq_true,
              ite_true, hmem, ite_false, hrec] at h
            cases h
          | ok r =>
            obtain ⟨s1, att1⟩ := r
            simp only [compareObjectAttributes, hne, ne_eq, not_false_eq_true,
              ite_true, hmem, ite_false, hrec, Except.ok.injEq,
              Prod.mk.injEq] at h
            obtain ⟨rfl, rfl⟩ := h
            obtain ⟨hmono, hsh⟩ := ih _ _ _ hrec
            refine ⟨fun a ha => hmono a (List.mem_cons_of_mem _ ha), ?_⟩
            intro a ha
            rcases List.mem_cons.mp ha with rfl | ha
            · exact ⟨⟨fieldName, rv, rfl⟩, hmem⟩
            · obtain ⟨hsha, hfresh⟩ := hsh a ha
              exact ⟨hsha, fun hin => hfresh (List.mem_cons_of_mem _ hin)⟩

/-- A field assertion carrying an owner list is fragment-shaped. -/
lemma isFragment_of_owners (src : Option VariableReference) (v : PyVal)
    (f : String) (m : Option String) (l : List (Option String)) :
    isFragmentAssertion (.fieldAssertion src v f m (some l)) = true := by
  cases src <;> cases m <;> rfl

/-- A field assertion with neither module nor owner list is
fragment-shaped. -/
lemma isFragment_of_attr (src : Option VariableReference) (v : PyVal)
    (f : String) :
    isFragmentAssertion (.fieldAssertion src v f none none) = true := by
  cases src <;> rfl

/-- The dispatch over one reference fragment's entries only grows the
deduplication set, and every attached assertion is a fresh fragment-shaped
assertion. -/
lemma compareFragmentEntries_sound (fragment : Fragment) (pos : Nat)
    (tc : TestCase) :
    ∀ (entries : List (String × FieldMap)) (fs s att : List Assertion),
      compareFragmentEntries fragment pos tc entries fs = .ok (s, att) →
      (∀ a ∈ fs, a ∈ s) ∧
      ∀ a ∈ att, isFragmentAssertion a = true ∧ a ∉ fs := by
  intro entries
  induction entries with
  | nil =>
    intro fs s att h
    simp only [compareFragmentEntries, Except.ok.injEq, Prod.mk.injEq] at h
    obtain ⟨rfl, rfl⟩ := h
    exact ⟨fun a ha => ha, by simp⟩
  | cons q rest ih =>
    intro fs s att h
    obtain ⟨frag_key, ref_frag_val⟩ := q
    simp only [compareFragmentEntries] at h
    set step :=
      if frag_key = KEY_CLASS_FIELD then
        compareClassFields (fragment.lookup frag_key) pos tc ref_frag_val fs
      else if frag_key = KEY_OBJECT_ATTRIBUTE then
        compareObjectAttributes (fragment.lookup frag_key) pos tc ref_frag_val
          fs
      else .ok (fs, []) with hstep
    have hshape : ∀ s1 a1, step = .ok (s1, a1) →
        (∀ a ∈ fs, a ∈ s1) ∧
        ∀ a ∈ a1, isFragmentAssertion a = true ∧ a ∉ fs := by
      intro s1 a1 hok
      rw [hstep] at hok
      by_cases hck : frag_key = KEY_CLASS_FIELD
      · rw [if_pos hck] at hok
        obtain ⟨hm, hsh⟩ := compareClassFields_sound _ pos tc _ fs s1 a1 hok
        refine ⟨hm, fun a ha => ?_⟩
        obtain ⟨⟨f, v, rfl⟩, hfresh⟩ := hsh a ha
        exact ⟨isFragment_of_owners _ _ _ _ _, hfresh⟩
      · rw [if_neg hck] at hok
        by_cases hoa : frag_key = KEY_OBJECT_ATTRIBUTE
        · rw [if_pos hoa] at hok
          obtain ⟨hm, hsh⟩ :=
            compareObjectAttributes_sound _ pos tc _ fs s1 a1 hok
          refine ⟨hm, fun a ha => ?_⟩
          obtain ⟨⟨f, v, rfl⟩, hfresh⟩ := hsh a ha
          exact ⟨isFragment_of_attr _ _ _, hfresh⟩
        · rw [if_neg hoa] at hok
          injection hok with hok2
          injection hok2 with h3 h4
          subst h3
          subst h4
          exact ⟨fun a ha => ha, by simp⟩
    cases hs : step with
    | error e =>
      rw [hs] at h
      cases h
    | ok r1 =>
      obtain ⟨s1, a1⟩ := r1
      rw [hs] at h
      cases h2 : compareFragmentEntries fragment pos tc rest s1 with
      | error e =>
        simp only [h2] at h
        cases h
      | ok r2 =>
        obtain ⟨s2, a2⟩ := r2
        simp only [h2, Except.ok.injEq, Prod.mk.injEq] at h
        obtain ⟨rfl, rfl⟩ := h
        obtain ⟨hm1, hsh1⟩ := hshape s1 a1 hs
        obtain ⟨hm2, hsh2⟩ := ih s1 s2 a2 h2
        refine ⟨fun a ha => hm2 a (hm1 a ha), ?_⟩
        intro a ha
        rcases List.mem_append.mp ha with ha | ha
        · exact hsh1 a ha
        · obtain ⟨hsha, hfresh⟩ := hsh2 a ha
          exact ⟨hsha, fun hin => hfresh (hm1 a hin)⟩

/-- The reference remainder loop only grows the deduplication set, and every
attached assertion is a fresh fragment-shaped assertion. -/
lemma compareFragments_sound (df : DataFrame) (pos : Nat) (tc : TestCase) :
    ∀ (rem : List (String × Fragment)) (fs s att : List Assertion),
      compareFragments df pos tc rem fs = .ok (s, att) →
      (∀ a ∈ fs, a ∈ s) ∧
      ∀ a ∈ att, isFragmentAssertion a = true ∧ a ∉ fs := by
  intro rem
  induction rem with
  | nil =>
    intro fs s att h
    simp only [compareFragments, Except.ok.injEq, Prod.mk.injEq] at h
    obtain ⟨rfl, rfl⟩ := h
    exact ⟨fun a ha => ha, by simp⟩
  | cons q rest ih =>
    intro fs s att h
    obtain ⟨key, ref_fragment⟩ := q
    cases hl : df.fragments.lookup key with
    | none =>
      simp only [compareFragments, hl] at h
      cases h
    | some fragment =>
      cases h1 : compareFragmentEntries fragment pos tc ref_fragment fs with
      | error e =>
        simp only [compareFragments, hl, h1] at h
        cases h
      | ok r1 =>
        obtain ⟨s1, a1⟩ := r1
        cases h2 : compareFragments df pos tc rest s1 with
        | error e =>
          simp only [compareFragments, hl, h1, h2] at h
          cases h
        | ok r2 =>
          obtain ⟨s2, a2⟩ := r2
          simp only [compareFragments, hl, h1, h2, Except.ok.injEq,
            Prod.mk.injEq] at h
          obtain ⟨rfl, rfl⟩ := h
          obtain ⟨hm1, hsh1⟩ :=
            compareFragmentEntries_sound fragment pos tc ref_fragment fs s1 a1
              h1
          obtain ⟨hm2, hsh2⟩ := ih s1 s2 a2 h2
          refine ⟨fun a ha => hm2 a (hm1 a ha), ?_⟩
          intro a ha
          rcases List.mem_append.mp ha with ha | ha
          · exact hsh1 a ha
          · obtain ⟨hsha, hfresh⟩ := hsh2 a ha
            exact ⟨hsha, fun hin => hfresh (hm1 a hin)⟩

/-- One mutant's processing: the state's deduplication sets only grow, and
the attached assertions decompose as the value assertions, then the fresh
global assertions, then the fresh fragment assertions. -/
lemma processMutant_sound (ref_rv : PyVal)
    (refg : List (String × List (String × PyVal)))
    (rem : List (String × Fragment)) (pos : Nat) (tc : TestCase)
    (stmt : Statement) (st : SynthState) (df : DataFrame)
    (st2 : SynthState) (att : List Assertion)
    (h : processMutant ref_rv refg rem pos tc stmt st df = .ok (st2, att)) :
    (∀ a ∈ st.global_assertions, a ∈ st2.global_assertions) ∧
    (∀ a ∈ st.field_assertions, a ∈ st2.field_assertions) ∧
    ∃ r g f, att = r ++ g ++ f ∧
      (∀ a ∈ r, isValueAssertion a = true) ∧
      (∀ a ∈ g, isGlobalAssertion a = true ∧ a ∉ st.global_assertions) ∧
      (∀ a ∈ f, isFragmentAssertion a = true ∧ a ∉ st.field_assertions) := by
  unfold processMutant at h
  cases h1 : compareGlobals df.globals refg st.global_assertions with
  | error e =>
    rw [h1] at h
    cases h
  | ok r1 =>
    obtain ⟨gset, attG⟩ := r1
    cases h2 : compareFragments df pos tc rem st.field_assertions with
    | error e =>
      rw [h1, h2] at h
      cases h
    | ok r2 =>
      obtain ⟨fset, attF⟩ := r2
      rw [h1, h2] at h
      simp only [Except.ok.injEq, Prod.mk.injEq] at h
      obtain ⟨hst, rfl⟩ := h
      obtain ⟨hmg, hsg⟩ :=
        compareGlobals_sound df.globals refg st.global_assertions gset attG h1
      obtain ⟨hmf, hsf⟩ :=
        compareFragments_sound df pos tc rem st.field_assertions fset attF h2
      subst hst
      refine ⟨hmg, hmf, ?_⟩
      refine ⟨(compareReturnValue df.return_value ref_rv stmt
        st.last_obj_assertion).2, attG, attF, by simp, ?_, hsg, hsf⟩
      exact compareReturnValue_shape df.return_value ref_rv stmt
        st.last_obj_assertion

/-- The mutant loop: the deduplication sets only grow, and the attached
assertions are, mutant by mutant in input order, a value-assertion part, a
fresh global part and a fresh fragment part. -/
lemma processMutants_parts (ref_rv : PyVal)
    (refg : List (String × List (String × PyVal)))
    (rem : List (String × Fragment)) (pos : Nat) (tc : TestCase)
    (stmt : Statement) :
    ∀ (dfs : List DataFrame) (st st2 : SynthState) (att : List Assertion),
      processMutants ref_rv refg rem pos tc stmt st dfs = .ok (st2, att) →
      (∀ a ∈ st.global_assertions, a ∈ st2.global_assertions) ∧
      (∀ a ∈ st.field_assertions, a ∈ st2.field_assertions) ∧
      ∃ parts : List (List Assertion), parts.length = dfs.length ∧
        att = parts.flatten ∧
        ∀ p ∈ parts, ∃ r g f, p = r ++ g ++ f ∧
          (∀ a ∈ r, isValueAssertion a = true) ∧
          (∀ a ∈ g, isGlobalAssertion a = true ∧ a ∉ st.global_assertions) ∧
          (∀ a ∈ f, isFragmentAssertion a = true ∧
            a ∉ st.field_assertions) := by
  intro dfs
  induction dfs with
  | nil =>
    intro st st2 att h
    simp only [processMutants, Except.ok.injEq, Prod.mk.injEq] at h
    obtain ⟨rfl, rfl⟩ := h
    exact ⟨fun a ha => ha, fun a ha => ha, [], by simp, by simp, by simp⟩
  | cons df rest ih =>
    intro st st2 att h
    cases h1 : processMutant ref_rv refg rem pos tc stmt st df with
    | error e =>
      simp only [processMutants, h1] at h
      cases h
    | ok r1 =>
      obtain ⟨st1, a1⟩ := r1
      cases h2 : processMutants ref_rv refg rem pos tc stmt st1 rest with
      | error e =>
        simp only [processMutants, h1, h2] at h
        cases h
      | ok r2 =>
        obtain ⟨st3, a2⟩ := r2
        simp only [processMutants, h1, h2, Except.ok.injEq,
          Prod.mk.injEq] at h
        obtain ⟨rfl, rfl⟩ := h
        obtain ⟨hmg1, hmf1, r, g, f, hdec, hr, hg, hf⟩ :=
          processMutant_sound ref_rv refg rem pos tc stmt st df st1 a1 h1
        obtain ⟨hmg2, hmf2, parts, hlen, hflat, hparts⟩ :=
          ih st1 st3 a2 h2
        refine ⟨fun a ha => hmg2 a (hmg1 a ha),
          fun a ha => hmf2 a (hmf1 a ha), a1 :: parts, by simp [hlen],
          by simp [hflat], ?_⟩
        intro p hp
        rcases List.mem_cons.mp hp with rfl | hp
        · exact ⟨r, g, f, hdec, hr, hg, hf⟩
        · obtain ⟨r2, g2, f2, hdec2, hr2, hg2, hf2⟩ := hparts p hp
          refine ⟨r2, g2, f2, hdec2, hr2, ?_, ?_⟩
          · intro a ha
            obtain ⟨hsha, hfresh⟩ := hg2 a ha
            exact ⟨hsha, fun hin => hfresh (hmg1 a hin)⟩
          · intro a ha
            obtain ⟨hsha, hfresh⟩ := hf2 a ha
            exact ⟨hsha, fun hin => hfresh (hmf1 a hin)⟩

/-- C1 counterexample: one reference observation with two mutants — the
first mutant equal in return value but differing in a class field, the
second differing in return value — attaches a fragment (class-field)
assertion BEFORE a value assertion, so the assertions on the statement are
not grouped with all return-value assertions first; attachment is
interleaved per mutant. -/
theorem c1_order_counterexample :
    processMutants (PyVal.vint 3) [] [("obj", [("class_field",
        [("f", PyVal.vint 1)])])] 0
      ⟨0, [Statement.constructorStmt ⟨1, some ⟨"Foo", "bar"⟩⟩]⟩
      (Statement.constructorStmt ⟨1, some ⟨"Foo", "bar"⟩⟩) initState
      [⟨0, 0, PyVal.vint 3, [], [("obj", [("class_field",
          [("f", PyVal.vint 2)])])]⟩,
       ⟨0, 0, PyVal.vint 5, [], [("obj", [("class_field",
          [("f", PyVal.vint 1)])])]⟩] =
      .ok ({ global_assertions := [],
             field_assertions := [Assertion.fieldAssertion none
               (PyVal.vint 1) "f" (some "bar") (some [some "Foo"])],
             last_obj_assertion := some (Assertion.complexAssertion
               (some ⟨1, some ⟨"Foo", "bar"⟩⟩) (PyVal.vint 3)) },
           [Assertion.fieldAssertion none (PyVal.vint 1) "f" (some "bar")
              (some [some "Foo"]),
            Assertion.complexAssertion (some ⟨1, some ⟨"Foo", "bar"⟩⟩)
              (PyVal.vint 3)]) ∧
    isFragmentAssertion (Assertion.fieldAssertion none (PyVal.vint 1) "f"
      (some "bar") (some [some "Foo"])) = true ∧
    isValueAssertion (Assertion.complexAssertion
      ((some ⟨1, some ⟨"Foo", "bar"⟩⟩) : Option VariableReference)
      (PyVal.vint 3)) = true := by
  refine ⟨by rfl, by rfl, by rfl⟩

/-- C1 as amended: the assertions attached while processing one reference
observation are deterministic (the synthesizer is a function) and ordered
mutant by mutant in ascending mutant-index order; within each mutant's
contribution the value assertions come first, then the global assertions,
then the fragment assertions.  Grouping by category across different mutants
does not hold. -/
theorem c1_order_amended (ref_rv : PyVal)
    (refg : List (String × List (String × PyVal)))
    (rem : List (String × Fragment)) (pos : Nat) (tc : TestCase)
    (stmt : Statement) (dfs : List DataFrame) (st st2 : SynthState)
    (att : List Assertion)
    (h : processMutants ref_rv refg rem pos tc stmt st dfs = .ok (st2, att)) :
    ∃ parts : List (List Assertion), parts.length = dfs.length ∧
      att = parts.flatten ∧
      ∀ p ∈ parts, ∃ r g f, p = r ++ g ++ f ∧
        (∀ a ∈ r, isValueAssertion a = true) ∧
        (∀ a ∈ g, isGlobalAssertion a = true) ∧
        (∀ a ∈ f, isFragmentAssertion a = true) := by
  obtain ⟨hmg, hmf, parts, hlen, hflat, hparts⟩ :=
    processMutants_parts ref_rv refg rem pos tc stmt dfs st st2 att h
  refine ⟨parts, hlen, hflat, ?_⟩
  intro p hp
  obtain ⟨r, g, f, hdec, hr, hg, hf⟩ := hparts p hp
  exact ⟨r, g, f, hdec, hr, fun a ha => (hg a ha).1, fun a ha => (hf a ha).1⟩

/-- Witness for C1 as amended, at the concrete two-mutant input: the
attached list splits into a per-mutant fragment part followed by a
per-mutant value part. -/
theorem c1_order_amended_witness :
    ∃ parts : List (List Assertion), parts.length = 2 ∧
      [Assertion.fieldAssertion none (PyVal.vint 1) "f" (some "bar")
         (some [some "Foo"]),
       Assertion.complexAssertion (some ⟨1, some ⟨"Foo", "bar"⟩⟩)
         (PyVal.vint 3)] = parts.flatten ∧
      ∀ p ∈ parts, ∃ r g f, p = r ++ g ++ f ∧
        (∀ a ∈ r, isValueAssertion a = true) ∧
        (∀ a ∈ g, isGlobalAssertion a = true) ∧
        (∀ a ∈ f, isFragmentAssertion a = true) :=
  c1_order_amended (PyVal.vint 3) [] [("obj", [("class_field",
      [("f", PyVal.vint 1)])])] 0
    ⟨0, [Statement.constructorStmt ⟨1, some ⟨"Foo", "bar"⟩⟩]⟩
    (Statement.constructorStmt ⟨1, some ⟨"Foo", "bar"⟩⟩)
    [⟨0, 0, PyVal.vint 3, [], [("obj", [("class_field",
        [("f", PyVal.vint 2)])])]⟩,
     ⟨0, 0, PyVal.vint 5, [], [("obj", [("class_field",
        [("f", PyVal.vint 1)])])]⟩] initState _ _ (by rfl)

/-- C6: every class-field mismatch yields a field assertion whose owning
module and class are resolved from the backward object resolution at this
position (the closest constructor statement at or before it) and which
carries NO instance reference — even when such an instance reference is
locatable. -/
theorem c6_class_field_scoping (frag_val : Option FieldMap) (pos : Nat)
    (tc : TestCase) (l : List (String × PyVal)) (fs s att : List Assertion)
    (h : compareClassFields frag_val pos tc l fs = .ok (s, att)) :
    ∀ a ∈ att, ∃ f v, a = .fieldAssertion none v f
      (getCurrentObjectModule (getCurrentObjectRef tc pos))
      (some [getCurrentObjectClass (getCurrentObjectRef tc pos)]) :=
  fun a ha =>
    ((compareClassFields_sound frag_val pos tc l fs s att h).2 a ha).1

/-- Witness for C6 at a concrete input where the instance reference IS
locatable (a constructor at position 0 produced it): the attached assertion
is scoped to module `bar` and class `Foo` with no instance reference. -/
theorem c6_class_field_scoping_witness :
    ∃ f v,
      Assertion.fieldAssertion none (PyVal.vint 1) "f" (some "bar")
        (some [some "Foo"]) =
      Assertion.fieldAssertion none v f
        (getCurrentObjectModule (getCurrentObjectRef
          ⟨0, [Statement.constructorStmt ⟨1, some ⟨"Foo", "bar"⟩⟩]⟩ 0))
        (some [getCurrentObjectClass (getCurrentObjectRef
          ⟨0, [Statement.constructorStmt ⟨1, some ⟨"Foo", "bar"⟩⟩]⟩ 0)]) :=
  c6_class_field_scoping (some [("f", PyVal.vint 2)]) 0
    ⟨0, [Statement.constructorStmt ⟨1, some ⟨"Foo", "bar"⟩⟩]⟩
    [("f", PyVal.vint 1)] []
    [Assertion.fieldAssertion none (PyVal.vint 1) "f" (some "bar")
       (some [some "Foo"])]
    [Assertion.fieldAssertion none (PyVal.vint 1) "f" (some "bar")
       (some [some "Foo"])]
    (by rfl)
    (Assertion.fieldAssertion none (PyVal.vint 1) "f" (some "bar")
       (some [some "Foo"]))
    (by simp)

/-- The backward object resolution is the first constructor statement among
the statements at positions `0..pos` INCLUSIVE, scanned from `pos`
downwards. -/
lemma getCurrentObjectRef_eq_find (tc : TestCase) :
    ∀ pos, pos < tc.statements.length →
      getCurrentObjectRef tc pos =
        ((tc.statements.take (pos + 1)).reverse.find?
          Statement.isConstructor).map Statement.ret_val := by
  intro pos
  induction pos with
  | zero =>
    intro h
    obtain ⟨s0, hs0⟩ : ∃ a, tc.statements.get? 0 = some a :=
      ⟨_, List.get?_eq_get h⟩
    have htake : tc.statements.take 1 = [s0] := by
      rw [List.take_succ]
      simp [← List.get?_eq_getElem?, hs0]
    rw [htake]
    show (match tc.statements.get? 0 with
      | some s => if s.isConstructor then some s.ret_val else none
      | none => none) = _
    rw [hs0]
    by_cases hc : s0.isConstructor
    · simp [List.find?_cons_of_pos, hc]
    · simp [List.find?_cons_of_neg, hc]
  | succ p ih =>
    intro h
    obtain ⟨s, hs⟩ : ∃ a, tc.statements.get? (p + 1) = some a :=
      ⟨_, List.get?_eq_get h⟩
    have htake : tc.statements.take (p + 2) =
        tc.statements.take (p + 1) ++ [s] := by
      rw [List.take_succ]
      simp [← List.get?_eq_getElem?, hs]
    rw [htake, List.reverse_append]
    show (match tc.statements.get? (p + 1) with
      | some s => if s.isConstructor then some s.ret_val
                  else getCurrentObjectRef tc p
      | none => getCurrentObjectRef tc p) = _
    rw [hs]
    by_cases hc : s.isConstructor
    · simp [List.find?_cons_of_pos, hc]
    · simp only [hc, Bool.false_eq_true, if_false, List.reverse_singleton,
        List.singleton_append]
      rw [List.find?_cons_of_neg _ (by simp [hc])]
      exact ih (Nat.lt_of_succ_lt h)

/-- C5 counterexample: a test case whose single statement, at position 0, is
itself a constructor statement.  No statement precedes position 0, so under
the claim the resolution would return none — but the code scans from
`pos` INCLUSIVE and returns that very constructor's result reference. -/
theorem c5_backward_scan_counterexample :
    getCurrentObjectRef
        ⟨0, [Statement.constructorStmt ⟨1, some ⟨"Foo", "bar"⟩⟩]⟩ 0 =
      some ⟨1, some ⟨"Foo", "bar"⟩⟩ ∧
    getCurrentObjectRefSpec
        ⟨0, [Statement.constructorStmt ⟨1, some ⟨"Foo", "bar"⟩⟩]⟩ 0 =
      none :=
  ⟨rfl, rfl⟩

/-- C5 as amended: backward object resolution at an in-range position `pos`
is a linear scan over the statements at positions up to AND INCLUDING `pos`,
returning the closest such constructor statement's result reference, or none
when no constructor statement occurs at or before `pos`; in that none case
the class-field comparison still succeeds and constructs its field
assertions with an absent instance reference, absent module and an absent
class name, and the object-attribute comparison constructs its assertions
with an absent instance reference — neither fails. -/
theorem c5_backward_scan_amended (tc : TestCase) (pos : Nat)
    (h : pos < tc.statements.length) :
    getCurrentObjectRef tc pos =
      ((tc.statements.take (pos + 1)).reverse.find?
        Statement.isConstructor).map Statement.ret_val ∧
    (getCurrentObjectRef tc pos = none →
      (∀ d l fs s att,
        compareClassFields (some d) pos tc l fs = .ok (s, att) →
        ∀ a ∈ att, ∃ f v,
          a = .fieldAssertion none v f none (some [none])) ∧
      (∀ d l fs s att,
        compareObjectAttributes (some d) pos tc l fs = .ok (s, att) →
        ∀ a ∈ att, ∃ f v, a = .fieldAssertion none v f none none)) := by
  refine ⟨getCurrentObjectRef_eq_find tc pos h, ?_⟩
  intro hnone
  constructor
  · intro d l fs s att hok a ha
    obtain ⟨⟨f, v, rfl⟩, _⟩ :=
      (compareClassFields_sound (some d) pos tc l fs s att hok).2 a ha
    rw [hnone]
    exact ⟨f, v, rfl⟩
  · intro d l fs s att hok a ha
    obtain ⟨⟨f, v, rfl⟩, _⟩ :=
      (compareObjectAttributes_sound (some d) pos tc l fs s att hok).2 a ha
    rw [hnone]
    exact ⟨f, v, rfl⟩

/-- Witness for C5 as amended, at a concrete test case `[other; ctor]` and
position 1: the scan characterization holds at an in-range position. -/
theorem c5_backward_scan_amended_witness :
    getCurrentObjectRef
        ⟨0, [Statement.otherStmt ⟨0, none⟩,
             Statement.constructorStmt ⟨1, some ⟨"Foo", "bar"⟩⟩]⟩ 1 =
      (([Statement.otherStmt ⟨0, none⟩,
         Statement.constructorStmt ⟨1, some ⟨"Foo", "bar"⟩⟩].take 2).reverse.find?
          Statement.isConstructor).map Statement.ret_val :=
  (c5_backward_scan_amended
    ⟨0, [Statement.otherStmt ⟨0, none⟩,
         Statement.constructorStmt ⟨1, some ⟨"Foo", "bar"⟩⟩]⟩ 1
    (by decide)).1

/-- The remainder loop splits over list append: the second half runs on the
state the first half produced, and the attachments concatenate. -/
lemma compareFragments_append (df : DataFrame) (pos : Nat) (tc : TestCase) :
    ∀ (l1 l2 : List (String × Fragment)) (fs : List Assertion),
      compareFragments df pos tc (l1 ++ l2) fs =
        match compareFragments df pos tc l1 fs with
        | .error e => .error e
        | .ok (s, a) =>
          match compareFragments df pos tc l2 s with
          | .error e => .error e
          | .ok (s2, a2) => .ok (s2, a ++ a2) := by
  intro l1
  induction l1 with
  | nil =>
    intro l2 fs
    simp only [List.nil_append, compareFragments]
    cases h : compareFragments df pos tc l2 fs with
    | error e => rfl
    | ok r =>
      obtain ⟨s2, a2⟩ := r
      simp
  | cons q rest ih =>
    intro l2 fs
    obtain ⟨key, rf⟩ := q
    cases hl : df.fragments.lookup key with
    | none => simp only [List.cons_append, compareFragments, hl]
    | some fragment =>
      cases h1 : compareFragmentEntries fragment pos tc rf fs with
      | error e => simp only [List.cons_append, compareFragments, hl, h1]
      | ok r1 =>
        obtain ⟨s1, a1⟩ := r1
        simp only [List.cons_append, compareFragments, hl, h1, List.append_eq]
        rw [ih l2 s1]
        cases h2 : compareFragments df pos tc rest s1 with
        | error e => simp [h2]
        | ok r2 =>
          obtain ⟨s2, a2⟩ := r2
          cases h3 : compareFragments df pos tc l2 s2 with
          | error e => simp [h2, h3]
          | ok r3 =>
            obtain ⟨s3, a3⟩ := r3
            simp [h2, h3, List.append_assoc]

/-- A reference fragment key absent from the mutant dataframe makes the
remainder loop fail. -/
lemma compareFragments_missing (df : DataFrame) (pos : Nat) (tc : TestCase) :
    ∀ (rem : List (String × Fragment)) (fs : List Assertion),
      (∃ p ∈ rem, df.fragments.lookup p.1 = none) →
      ∃ e, compareFragments df pos tc rem fs = .error e := by
  intro rem
  induction rem with
  | nil => rintro fs ⟨p, hp, _⟩; cases hp
  | cons q rest ih =>
    rintro fs ⟨p, hp, hmiss⟩
    obtain ⟨key, rf⟩ := q
    cases hl : df.fragments.lookup key with
    | none => exact ⟨.assertionError, by simp [compareFragments, hl]⟩
    | some fragment =>
      rcases List.mem_cons.mp hp with rfl | hp2
      · simp only [hl] at hmiss
        cases hmiss
      · cases h1 : compareFragmentEntries fragment pos tc rf fs with
        | error e => exact ⟨e, by simp [compareFragments, hl, h1]⟩
        | ok r1 =>
          obtain ⟨s1, a1⟩ := r1
          obtain ⟨e, he⟩ := ih s1 ⟨p, hp2, hmiss⟩
          exact ⟨e, by simp [compareFragments, hl, h1, he]⟩

/-- C7: a reference fragment key with no corresponding fragment in a mutant
dataframe is a fatal invariant breach, not a soft skip: the remainder loop
(and with it the whole per-mutant processing) fails, and when the fragments
before the missing key processed cleanly the failure is precisely the failed
`assert` (an `AssertionError`). -/
theorem c7_missing_fragment_aborts (df : DataFrame) (pos : Nat)
    (tc : TestCase) (rem : List (String × Fragment)) (fs : List Assertion)
    (ref_rv : PyVal) (refg : List (String × List (String × PyVal)))
    (stmt : Statement) (st : SynthState) :
    ((∃ p ∈ rem, df.fragments.lookup p.1 = none) →
       (∃ e, compareFragments df pos tc rem fs = .error e) ∧
       ∃ e, processMutant ref_rv refg rem pos tc stmt st df = .error e) ∧
    (∀ pre key rf post s1 a1,
       rem = pre ++ (key, rf) :: post →
       compareFragments df pos tc pre fs = .ok (s1, a1) →
       df.fragments.lookup key = none →
       compareFragments df pos tc rem fs = .error .assertionError) := by
  constructor
  · intro hmiss
    refine ⟨compareFragments_missing df pos tc rem fs hmiss, ?_⟩
    cases hg : compareGlobals df.globals refg st.global_assertions with
    | error e => exact ⟨e, by simp [processMutant, hg]⟩
    | ok r =>
      obtain ⟨gs, ag⟩ := r
      obtain ⟨e, he⟩ :=
        compareFragments_missing df pos tc rem st.field_assertions hmiss
      exact ⟨e, by simp [processMutant, hg, he]⟩
  · intro pre key rf post s1 a1 hrem hpre hkey
    subst hrem
    rw [compareFragments_append df pos tc pre ((key, rf) :: post) fs, hpre]
    simp [compareFragments, hkey]

/-- Witness for C7 at a concrete input: the reference carries fragment key
`obj`, the mutant dataframe carries no fragments at all — the remainder loop
and the per-mutant processing both fail, and the empty-prefix instance of
the split shows the failure is the `AssertionError`. -/
theorem c7_missing_fragment_aborts_witness :
    ((∃ e, compareFragments ⟨0, 0, PyVal.vint 0, [], []⟩ 0
        ⟨0, [Statement.otherStmt ⟨0, none⟩]⟩ [("obj", [])] [] = .error e) ∧
     ∃ e, processMutant (PyVal.vint 0) [] [("obj", [])] 0
        ⟨0, [Statement.otherStmt ⟨0, none⟩]⟩ (Statement.otherStmt ⟨0, none⟩)
        initState ⟨0, 0, PyVal.vint 0, [], []⟩ = .error e) ∧
    compareFragments ⟨0, 0, PyVal.vint 0, [], []⟩ 0
        ⟨0, [Statement.otherStmt ⟨0, none⟩]⟩ [("obj", [])] [] =
      .error .assertionError :=
  ⟨(c7_missing_fragment_aborts ⟨0, 0, PyVal.vint 0, [], []⟩ 0
      ⟨0, [Statement.otherStmt ⟨0, none⟩]⟩ [("obj", [])] [] (PyVal.vint 0) []
      (Statement.otherStmt ⟨0, none⟩) initState).1
     ⟨("obj", []), by simp, by rfl⟩,
   (c7_missing_fragment_aborts ⟨0, 0, PyVal.vint 0, [], []⟩ 0
      ⟨0, [Statement.otherStmt ⟨0, none⟩]⟩ [("obj", [])] [] (PyVal.vint 0) []
      (Statement.otherStmt ⟨0, none⟩) initState).2
     [] "obj" [] [] [] [] rfl (by rfl) (by rfl)⟩

/-- When every reference global field is present with an equal value in the
mutant globals, `_compare_globals` changes nothing and attaches nothing. -/
lemma compareGlobals_equal (gf : List (String × List (String × PyVal))) :
    ∀ (refg : List (String × List (String × PyVal))) (gs : List Assertion),
      (∀ mp ∈ refg, ∀ p ∈ mp.2, lookupGlobal gf mp.1 p.1 = some p.2) →
      compareGlobals gf refg gs = .ok (gs, []) := by
  intro refg
  induction refg with
  | nil => intro gs _; rfl
  | cons q rest ih =>
    intro gs heq
    obtain ⟨ma, fields⟩ := q
    have h1 : compareGlobalsFields gf ma fields gs = .ok (gs, []) :=
      compareGlobalsFields_equal gf ma fields gs
        (heq (ma, fields) (List.mem_cons_self _ _))
    have h2 : compareGlobals gf rest gs = .ok (gs, []) :=
      ih gs (fun mp hmp => heq mp (List.mem_cons_of_mem _ hmp))
    simp [compareGlobals, h1, h2]

/-- When every reference class field has an equal value in the mutant
fragment, the class-field comparison changes nothing and attaches
nothing. -/
lemma compareClassFields_equal (d : FieldMap) (pos : Nat) (tc : TestCase) :
    ∀ (l : List (String × PyVal)) (fs : List Assertion),
      (∀ p ∈ l, pyGet d p.1 = p.2) →
      compareClassFields (some d) pos tc l fs = .ok (fs, []) := by
  intro l
  induction l with
  | nil => intro fs _; rfl
  | cons q rest ih =>
    intro fs heq
    obtain ⟨fieldName, rv⟩ := q
    have hv : pyGet d fieldName = rv := heq (fieldName, rv) (List.mem_cons_self _ _)
    simp only [compareClassFields, hv]
    simpa using ih fs (fun p hp => heq p (List.mem_cons_of_mem _ hp))

/-- When every reference object attribute has an equal value in the mutant
fragment, the object-attribute comparison changes nothing and attaches
nothing. -/
lemma compareObjectAttributes_equal (d : FieldMap) (pos : Nat)
    (tc : TestCase) :
    ∀ (l : List (String × PyVal)) (fs : List Assertion),
      (∀ p ∈ l, pyGet d p.1 = p.2) →
      compareObjectAttributes (some d) pos tc l fs = .ok (fs, []) := by
  intro l
  induction l with
  | nil => intro fs _; rfl
  | cons q rest ih =>
    intro fs heq
    obtain ⟨fieldName, rv⟩ := q
    have hv : pyGet d fieldName = rv := heq (fieldName, rv) (List.mem_cons_self _ _)
    simp only [compareObjectAttributes, hv]
    simpa using ih fs (fun p hp => heq p (List.mem_cons_of_mem _ hp))

/-- When every fragment entry of the reference fragment is present and
field-wise equal in the mutant fragment, the entry dispatch changes nothing
and attaches nothing. -/
lemma compareFragmentEntries_equal (fragment : Fragment) (pos : Nat)
    (tc : TestCase) :
    ∀ (entries : List (String × FieldMap)) (fs : List Assertion),
      (∀ ep ∈ entries, ∃ d, fragment.lookup ep.1 = some d ∧
        ∀ p ∈ ep.2, pyGet d p.1 = p.2) →
      compareFragmentEntries fragment pos tc entries fs = .ok (fs, []) := by
  intro entries
  induction entries with
  | nil => intro fs _; rfl
  | cons q rest ih =>
    intro fs heq
    obtain ⟨frag_key, ref_frag_val⟩ := q
    obtain ⟨d, hd, hvals⟩ := heq (frag_key, ref_frag_val) (List.mem_cons_self _ _)
    dsimp only at hd hvals
    have hrest : compareFragmentEntries fragment pos tc rest fs = .ok (fs, []) :=
      ih fs (fun ep hep => heq ep (List.mem_cons_of_mem _ hep))
    by_cases hck : frag_key = KEY_CLASS_FIELD
    · subst hck
      have hstep : compareClassFields (fragment.lookup KEY_CLASS_FIELD) pos tc
          ref_frag_val fs = .ok (fs, []) := by
        rw [hd]
        exact compareClassFields_equal d pos tc ref_frag_val fs hvals
      simp [compareFragmentEntries, hstep, hrest]
    · by_cases hoa : frag_key = KEY_OBJECT_ATTRIBUTE
      · subst hoa
        have hstep : compareObjectAttributes
            (fragment.lookup KEY_OBJECT_ATTRIBUTE) pos tc ref_frag_val fs =
            .ok (fs, []) := by
          rw [hd]
          exact compareObjectAttributes_equal d pos tc ref_frag_val fs hvals
        have hne : ¬ (KEY_OBJECT_ATTRIBUTE = KEY_CLASS_FIELD) := by decide
        simp [compareFragmentEntries, hne, hstep, hrest]
      · simp [compareFragmentEntries, hck, hoa, hrest]

/-- When every reference remainder fragment is present in the mutant
dataframe and entry-wise equal, the remainder loop changes nothing and
attaches nothing. -/
lemma compareFragments_equal (df : DataFrame) (pos : Nat) (tc : TestCase) :
    ∀ (rem : List (String × Fragment)) (fs : List Assertion),
      (∀ kp ∈ rem, ∃ mf, df.fragments.lookup kp.1 = some mf ∧
        ∀ ep ∈ kp.2, ∃ d, mf.lookup ep.1 = some d ∧
          ∀ p ∈ ep.2, pyGet d p.1 = p.2) →
      compareFragments df pos tc rem fs = .ok (fs, []) := by
  intro rem
  induction rem with
  | nil => intro fs _; rfl
  | cons q rest ih =>
    intro fs heq
    obtain ⟨key, ref_fragment⟩ := q
    obtain ⟨mf, hmf, hentries⟩ := heq (key, ref_fragment) (List.mem_cons_self _ _)
    have h1 : compareFragmentEntries mf pos tc ref_fragment fs = .ok (fs, []) :=
      compareFragmentEntries_equal mf pos tc ref_fragment fs hentries
    have h2 : compareFragments df pos tc rest fs = .ok (fs, []) :=
      ih fs (fun kp hkp => heq kp (List.mem_cons_of_mem _ hkp))
    simp [compareFragments, hmf, h1, h2]

/-- C8: a mutant observation that agrees with the reference observation in
return value, in every (module-alias, field-name) of the reference globals
and in every field of every reference fragment contributes NO assertion: its
processing succeeds, attaches nothing and leaves the generator state
untouched. -/
theorem c8_no_false_oracle (ref_rv : PyVal)
    (refg : List (String × List (String × PyVal)))
    (rem : List (String × Fragment)) (pos : Nat) (tc : TestCase)
    (stmt : Statement) (st : SynthState) (df : DataFrame)
    (hrv : df.return_value = ref_rv)
    (hg : ∀ mp ∈ refg, ∀ p ∈ mp.2, lookupGlobal df.globals mp.1 p.1 = some p.2)
    (hf : ∀ kp ∈ rem, ∃ mf, df.fragments.lookup kp.1 = some mf ∧
      ∀ ep ∈ kp.2, ∃ d, mf.lookup ep.1 = some d ∧
        ∀ p ∈ ep.2, pyGet d p.1 = p.2) :
    processMutant ref_rv refg rem pos tc stmt st df = .ok (st, []) := by
  have h0 : compareReturnValue df.return_value ref_rv stmt
      st.last_obj_assertion = (st.last_obj_assertion, []) := by
    simp [compareReturnValue, hrv]
  have h1 := compareGlobals_equal df.globals refg st.global_assertions hg
  have h2 := compareFragments_equal df pos tc rem st.field_assertions hf
  simp [processMutant, h0, h1, h2]

/-- Witness for C8 at a concrete input: a mutant dataframe equal to the
reference in return value, the global `m.g` and the class field `obj.f`
leaves the state untouched and attaches nothing. -/
theorem c8_no_false_oracle_witness :
    processMutant (PyVal.vint 3) [("m", [("g", PyVal.vint 1)])]
        [("obj", [("class_field", [("f", PyVal.vint 2)])])] 0
        ⟨0, [Statement.otherStmt ⟨0, none⟩]⟩ (Statement.otherStmt ⟨0, none⟩)
        initState
        ⟨0, 0, PyVal.vint 3, [("m", [("g", PyVal.vint 1)])],
         [("obj", [("class_field", [("f", PyVal.vint 2)])])]⟩ =
      .ok (initState, []) :=
  c8_no_false_oracle (PyVal.vint 3) [("m", [("g", PyVal.vint 1)])]
    [("obj", [("class_field", [("f", PyVal.vint 2)])])] 0
    ⟨0, [Statement.otherStmt ⟨0, none⟩]⟩ (Statement.otherStmt ⟨0, none⟩)
    initState
    ⟨0, 0, PyVal.vint 3, [("m", [("g", PyVal.vint 1)])],
     [("obj", [("class_field", [("f", PyVal.vint 2)])])]⟩
    (by rfl)
    (by
      intro mp hmp p hp
      simp only [List.mem_singleton] at hmp
      subst hmp
      simp only [List.mem_singleton] at hp
      subst hp
      rfl)
    (by
      intro kp hkp
      simp only [List.mem_singleton] at hkp
      subst hkp
      refine ⟨[("class_field", [("f", PyVal.vint 2)])], rfl, ?_⟩
      intro ep hep
      simp only [List.mem_singleton] at hep
      subst hep
      refine ⟨[("f", PyVal.vint 2)], rfl, ?_⟩
      intro p hp
      simp only [List.mem_singleton] at hp
      subst hp
      rfl)

/-- One reference observation's processing: the deduplication sets only
grow, and no attached assertion was already in the respective incoming
deduplication set. -/
lemma processDataframe_sound (storage : List (List DataFrame))
    (tcs : List TestCase) (st : SynthState) (ref : DataFrame)
    (st2 : SynthState) (att : List Assertion)
    (h : processDataframe storage tcs st ref = .ok (st2, att)) :
    (∀ a ∈ st.global_assertions, a ∈ st2.global_assertions) ∧
    (∀ a ∈ st.field_assertions, a ∈ st2.field_assertions) ∧
    ∀ a ∈ att,
      (isGlobalAssertion a = true → a ∉ st.global_assertions) ∧
      (isFragmentAssertion a = true → a ∉ st.field_assertions) := by
  unfold processDataframe at h
  cases h1 : getTestcaseById tcs ref.test_id with
  | none =>
    simp only [h1] at h
    cases h
  | some test_case =>
    simp only [h1] at h
    cases h2 : getStatementByPos test_case ref.position with
    | none =>
      simp only [h2] at h
      cases h
    | some statement =>
      simp only [h2] at h
      obtain ⟨hmg, hmf, parts, hlen, hflat, hparts⟩ :=
        processMutants_parts ref.return_value ref.globals ref.fragments
          ref.position test_case statement _ _ st2 att h
      refine ⟨hmg, hmf, ?_⟩
      intro a ha
      rw [hflat] at ha
      obtain ⟨p, hp, hap⟩ := List.mem_flatten.mp ha
      obtain ⟨r, g, f, hdec, hr, hg, hf⟩ := hparts p hp
      subst hdec
      rcases List.mem_append.mp hap with hap2 | hap3
      · rcases List.mem_append.mp hap2 with hr2 | hg2
        · have hv := hr a hr2
          obtain ⟨hng, hnf⟩ := isValue_not_isField a hv
          refine ⟨fun hglob => ?_, fun hfrag => ?_⟩
          · rw [hng] at hglob
            cases hglob
          · rw [hnf] at hfrag
            cases hfrag
        · obtain ⟨hsha, hfresh⟩ := hg a hg2
          refine ⟨fun _ => hfresh, fun hfrag => ?_⟩
          rw [isGlobal_not_isFragment a hsha] at hfrag
          cases hfrag
      · obtain ⟨hsha, hfresh⟩ := hf a hap3
        refine ⟨fun hglob => ?_, fun _ => hfresh⟩
        rw [isGlobal_not_isFragment a hglob] at hsha
        cases hsha

/-- The reference loop: the deduplication sets only grow across the whole
pass, and no assertion attached anywhere in the pass was already in the
respective incoming deduplication set. -/
lemma generateAssertionsAux_fresh (storage : List (List DataFrame))
    (tcs : List TestCase) :
    ∀ (frames : List DataFrame) (st st2 : SynthState)
      (out : List (Nat × Nat × List Assertion)),
      generateAssertionsAux storage tcs st frames = .ok (st2, out) →
      (∀ a ∈ st.global_assertions, a ∈ st2.global_assertions) ∧
      (∀ a ∈ st.field_assertions, a ∈ st2.field_assertions) ∧
      ∀ e ∈ out, ∀ a ∈ e.2.2,
        (isGlobalAssertion a = true → a ∉ st.global_assertions) ∧
        (isFragmentAssertion a = true → a ∉ st.field_assertions) := by
  intro frames
  induction frames with
  | nil =>
    intro st st2 out h
    simp only [generateAssertionsAux, Except.ok.injEq, Prod.mk.injEq] at h
    obtain ⟨rfl, rfl⟩ := h
    exact ⟨fun a ha => ha, fun a ha => ha, by simp⟩
  | cons ref rest ih =>
    intro st st2 out h
    cases h1 : processDataframe storage tcs st ref with
    | error e =>
      simp only [generateAssertionsAux, h1] at h
      cases h
    | ok r1 =>
      obtain ⟨st1, att⟩ := r1
      cases h2 : generateAssertionsAux storage tcs st1 rest with
      | error e =>
        simp only [generateAssertionsAux, h1, h2] at h
        cases h
      | ok r2 =>
        obtain ⟨st3, out2⟩ := r2
        simp only [generateAssertionsAux, h1, h2, Except.ok.injEq,
          Prod.mk.injEq] at h
        obtain ⟨rfl, rfl⟩ := h
        obtain ⟨hmg1, hmf1, hfresh1⟩ :=
          processDataframe_sound storage tcs st ref st1 att h1
        obtain ⟨hmg2, hmf2, hfresh2⟩ := ih st1 st3 out2 h2
        refine ⟨fun a ha => hmg2 a (hmg1 a ha),
          fun a ha => hmf2 a (hmf1 a ha), ?_⟩
        intro e he a ha
        rcases List.mem_cons.mp he with rfl | he2
        · exact hfresh1 a ha
        · obtain ⟨hg, hf⟩ := hfresh2 e he2 a ha
          exact ⟨fun hglob hin => hg hglob (hmg1 a hin),
            fun hfrag hin => hf hfrag (hmf1 a hin)⟩

/-- C4 counterexample: the deduplication sets are fields of the generator
initialised in `__init__` and carried from pass to pass.  A first synthesis
pass over a class-field mismatch attaches the field assertion and leaves it
in the generator's set; a second pass of the same generator over the very
same storage attaches NOTHING, because the assertion recorded by the first
pass suppresses it — so the sets are not instantiated fresh per pass. -/
theorem c4_pass_state_counterexample :
    generateAssertions
        [[⟨0, 0, PyVal.vint 3, [], [("obj", [("class_field",
            [("f", PyVal.vint 1)])])]⟩],
         [⟨0, 0, PyVal.vint 3, [], [("obj", [("class_field",
            [("f", PyVal.vint 2)])])]⟩]]
        [⟨0, [Statement.constructorStmt ⟨1, some ⟨"Foo", "bar"⟩⟩]⟩]
        initState =
      .ok ({ global_assertions := [],
             field_assertions := [Assertion.fieldAssertion none
               (PyVal.vint 1) "f" (some "bar") (some [some "Foo"])],
             last_obj_assertion := none },
           [(0, 0, [Assertion.fieldAssertion none (PyVal.vint 1) "f"
              (some "bar") (some [some "Foo"])])]) ∧
    generateAssertions
        [[⟨0, 0, PyVal.vint 3, [], [("obj", [("class_field",
            [("f", PyVal.vint 1)])])]⟩],
         [⟨0, 0, PyVal.vint 3, [], [("obj", [("class_field",
            [("f", PyVal.vint 2)])])]⟩]]
        [⟨0, [Statement.constructorStmt ⟨1, some ⟨"Foo", "bar"⟩⟩]⟩]
        { global_assertions := [],
          field_assertions := [Assertion.fieldAssertion none
            (PyVal.vint 1) "f" (some "bar") (some [some "Foo"])],
          last_obj_assertion := none } =
      .ok ({ global_assertions := [],
             field_assertions := [Assertion.fieldAssertion none
               (PyVal.vint 1) "f" (some "bar") (some [some "Foo"])],
             last_obj_assertion := none },
           [(0, 0, [])]) :=
  ⟨rfl, rfl⟩

/-- C4 as amended: the deduplication sets are per-generator state, created
once in `__init__` and threaded through every synthesis pass: a pass only
grows them, and no assertion attached during a pass was already present in
the carried-in sets — so an equal assertion attached in an earlier pass of
the same generator suppresses it in every later pass. -/
theorem c4_pass_state_amended (storage : List (List DataFrame))
    (tcs : List TestCase) (st st2 : SynthState)
    (out : List (Nat × Nat × List Assertion))
    (h : generateAssertions storage tcs st = .ok (st2, out)) :
    (∀ a ∈ st.global_assertions, a ∈ st2.global_assertions) ∧
    (∀ a ∈ st.field_assertions, a ∈ st2.field_assertions) ∧
    ∀ e ∈ out, ∀ a ∈ e.2.2,
      (isGlobalAssertion a = true → a ∉ st.global_assertions) ∧
      (isFragmentAssertion a = true → a ∉ st.field_assertions) :=
  generateAssertionsAux_fresh storage tcs (getItems storage 0) st st2 out h

/-- Witness for C4 as amended: a pass started with a non-empty carried-in
field set attaches only assertions outside that set. -/
theorem c4_pass_state_amended_witness :
    (∀ a ∈ ([] : List Assertion), a ∈ ([] : List Assertion)) ∧
    (∀ a ∈ [Assertion.fieldAssertion none (PyVal.vint 9) "other" none none],
       a ∈ [Assertion.fieldAssertion none (PyVal.vint 1) "f" (some "bar")
              (some [some "Foo"]),
            Assertion.fieldAssertion none (PyVal.vint 9) "other" none none]) ∧
    ∀ e ∈ [((0 : Nat), (0 : Nat),
        [Assertion.fieldAssertion none (PyVal.vint 1) "f" (some "bar")
           (some [some "Foo"])])],
      ∀ a ∈ e.2.2,
        (isGlobalAssertion a = true → a ∉ ([] : List Assertion)) ∧
        (isFragmentAssertion a = true →
          a ∉ [Assertion.fieldAssertion none (PyVal.vint 9) "other"
                 none none]) :=
  c4_pass_state_amended
    [[⟨0, 0, PyVal.vint 3, [], [("obj", [("class_field",
        [("f", PyVal.vint 1)])])]⟩],
     [⟨0, 0, PyVal.vint 3, [], [("obj", [("class_field",
        [("f", PyVal.vint 2)])])]⟩]]
    [⟨0, [Statement.constructorStmt ⟨1, some ⟨"Foo", "bar"⟩⟩]⟩]
    ⟨[], [Assertion.fieldAssertion none (PyVal.vint 9) "other" none none],
     none⟩ _ _ (by rfl)

/-- C3: for every mutant return value differing from the reference's, the
comparison constructs the value assertion binding the statement's result
reference to the reference return value; it suppresses the attachment exactly
when the previously emitted value assertion of the same per-position
iteration (the `_last_obj_assertion` cursor, reset to `None` before the
mutant loop of each reference observation) bound an equal expected value, and
otherwise attaches the assertion and updates the cursor to it. -/
theorem c3_return_value_suppression (retval ref_rv : PyVal)
    (statement : Statement) (last_obj : Option Assertion)
    (hne : retval ≠ ref_rv) :
    (∀ l, last_obj = some l → l.value = ref_rv →
       compareReturnValue retval ref_rv statement last_obj = (last_obj, [])) ∧
    ((∀ l, last_obj = some l → l.value ≠ ref_rv) →
       compareReturnValue retval ref_rv statement last_obj =
         (some (Assertion.complexAssertion (some statement.ret_val) ref_rv),
          [Assertion.complexAssertion (some statement.ret_val) ref_rv])) := by
  constructor
  · rintro l rfl hval
    simp [compareReturnValue, hne, hval]
  · intro hfresh
    cases last_obj with
    | none => simp [compareReturnValue, hne]
    | some l =>
      have hl : l.value ≠ ref_rv := hfresh l rfl
      simp [compareReturnValue, hne, hl]

/-- Witness for C3 at a concrete input: reference return value 3, mutant
return value 5, empty cursor — the assertion is attached and the cursor
updated. -/
theorem c3_return_value_suppression_witness :
    compareReturnValue (PyVal.vint 5) (PyVal.vint 3)
        (Statement.otherStmt ⟨0, none⟩) none =
      (some (Assertion.complexAssertion
         (some (Statement.otherStmt ⟨0, none⟩).ret_val) (PyVal.vint 3)),
       [Assertion.complexAssertion
         (some (Statement.otherStmt ⟨0, none⟩).ret_val) (PyVal.vint 3)]) :=
  (c3_return_value_suppression (PyVal.vint 5) (PyVal.vint 3)
      (Statement.otherStmt ⟨0, none⟩) none (by decide)).2
    (by intro l h; cases h)

/-- C2 counterexample: with reference return value `3` and three mutant
observations at the same position whose return values are `5, 5, 7`, the
mutant loop attaches exactly ONE value assertion, whose expected value is the
reference value `3` — not two assertions with expected values `5` and `7` as
the claim states (every constructed value assertion binds `ref_rv`, so the
cursor suppresses all but the first). -/
theorem c2_coalescing_counterexample :
    processMutants (PyVal.vint 3) [] [] 0 ⟨0, [Statement.otherStmt ⟨0, none⟩]⟩
        (Statement.otherStmt ⟨0, none⟩) initState
        [⟨0, 0, PyVal.vint 5, [], []⟩, ⟨0, 0, PyVal.vint 5, [], []⟩,
         ⟨0, 0, PyVal.vint 7, [], []⟩] =
      .ok ({ global_assertions := [], field_assertions := [],
             last_obj_assertion :=
               some (Assertion.complexAssertion (some ⟨0, none⟩)
                 (PyVal.vint 3)) },
           [Assertion.complexAssertion (some ⟨0, none⟩) (PyVal.vint 3)]) ∧
    [Assertion.complexAssertion ((some ⟨0, none⟩) : Option VariableReference)
       (PyVal.vint 3)].length ≠ 2 := by
  constructor
  · rfl
  · decide

/-- C2 as amended: in the `5, 5, 7` versus reference `3` scenario, exactly
one value assertion is attached, and it binds the statement's result
reference to the reference return value `3`; the second and third differing
mutants are suppressed because the candidate assertion again binds the very
same reference value the previously emitted one bound. -/
theorem c2_coalescing_amended :
    (processMutants (PyVal.vint 3) [] [] 0
        ⟨0, [Statement.otherStmt ⟨0, none⟩]⟩
        (Statement.otherStmt ⟨0, none⟩) initState
        [⟨0, 0, PyVal.vint 5, [], []⟩, ⟨0, 0, PyVal.vint 5, [], []⟩,
         ⟨0, 0, PyVal.vint 7, [], []⟩]).map (fun r => r.2) =
      .ok [Assertion.complexAssertion (some ⟨0, none⟩) (PyVal.vint 3)] := by
  rfl

end MutationAnalysis

namespace GenericAccessible

/-- C10: `GenericField.__eq__` returns `True` for any two instances with
equal owners, whatever their field names, because the source compares
`self._field` with itself; `__hash__` does incorporate the field name, so
whenever the interpreter hashes the two field names differently, the two
equal-comparing instances hash differently. -/
theorem c10_genericfield_eq_hash (hashOwner : Nat → Int)
    (hashField : String → Int) (a b : GenericField)
    (howner : a.owner = b.owner) :
    GenericField.eqPy a b = true ∧
    (hashField a.field ≠ hashField b.field →
       GenericField.hashPy hashOwner hashField a ≠
         GenericField.hashPy hashOwner hashField b) := by
  constructor
  · simp [GenericField.eqPy, howner]
  · intro hfield
    simp only [GenericField.hashPy, howner, ne_eq, Int.add_right_inj]
    omega

/-- Witness for C10: two instances with owner `0` and distinct field names
`"x"` and `"xy"` compare equal yet hash differently under the length-based
string hash. -/
theorem c10_genericfield_eq_hash_witness :
    GenericField.eqPy ⟨0, "x"⟩ ⟨0, "xy"⟩ = true ∧
    GenericField.hashPy (fun n => (n : Int)) (fun s => (s.length : Int))
        ⟨0, "x"⟩ ≠
      GenericField.hashPy (fun n => (n : Int)) (fun s => (s.length : Int))
        ⟨0, "xy"⟩ :=
  ⟨(c10_genericfield_eq_hash (fun n => (n : Int))
      (fun s => (s.length : Int)) ⟨0, "x"⟩ ⟨0, "xy"⟩ rfl).1,
   (c10_genericfield_eq_hash (fun n => (n : Int))
      (fun s => (s.length : Int)) ⟨0, "x"⟩ ⟨0, "xy"⟩ rfl).2 (by decide)⟩

end GenericAccessible
